import Mathlib

/-!
Shallow embedding of `src/dna_com_analysis.py` (DNA center-of-mass analysis).

Conventions of the embedding:
* a Python float is idealized as `Option ℚ`: `some q` is the finite value `q`,
  `none` models a non-finite float (NaN or ±infinity);
* a frame (one slice of the tiff stack) is a `List (List ℚ)`, a rectangular
  matrix of intensity values, outer list indexed by row (numpy axis 0),
  inner lists indexed by column (numpy axis 1);
* Python exceptions are modelled with `Except`: true division raises
  `ZeroDivisionError` when the divisor is (exactly) the float `0.0`.
-/

namespace DnaCom

/-- Subtraction of Python floats: finite − finite is exact, and any
operand that is NaN/∞ (`none`) propagates. -/
def pySub (a b : Option ℚ) : Option ℚ :=
  match a, b with
  | some x, some y => some (x - y)
  | _, _ => none

/-- True division of Python floats, `a / b`.  A zero divisor raises
`ZeroDivisionError` (modelled as `Except.error ()`), even when the numerator
is NaN; a NaN divisor yields NaN. -/
def pyDiv (a b : Option ℚ) : Except Unit (Option ℚ) :=
  match b with
  | none => Except.ok none
  | some t =>
    if t = 0 then Except.error ()
    else
      match a with
      | none => Except.ok none
      | some x => Except.ok (some (x / t))

/-- Line 209 of the source: `m_x = array_tiff.sum(axis=1)` — for a 2D numpy
array this sums each row (over the column index), so `m_x` has one entry per
row. -/
def m_x (array_tiff : List (List ℚ)) : List ℚ :=
  array_tiff.map List.sum

/-- Line 210 of the source: `m_y = array_tiff.sum(axis=0)` — elementwise sum
of the rows, one entry per column. -/
def m_y (array_tiff : List (List ℚ)) : List ℚ :=
  match array_tiff with
  | [] => []
  | r :: rs => rs.foldl (fun acc row => List.zipWith (fun x y => x + y) acc row) r

/-- Helper for `np.sum(m * np.arange(m.size))`: `weightedSumAux m i` is the
sum of `m[k] * (i + k)` over all positions `k` of `m`. -/
def weightedSumAux : List ℚ → Nat → ℚ
  | [], _ => 0
  | w :: ws, i => w * (i : ℚ) + weightedSumAux ws (i + 1)

/-- One axis of lines 213-214: `np.sum(m * np.arange(m.size)) / np.sum(m)`.
When `np.sum(m) = 0` the numpy float division produces a non-finite value
(NaN when the numerator is also 0, ±∞ otherwise), modelled as `none`;
no exception is raised by numpy here. -/
def axisCM (m : List ℚ) : Option ℚ :=
  if List.sum m = 0 then none
  else some (weightedSumAux m 0 / List.sum m)

/-- Lines 200-216, `calculate_center_of_mass`: returns `(cmx, cmy)` where
`cmx` is the weighted mean index of `m_x` (the per-row mass profile, so `cmx`
is the row centroid) and `cmy` the weighted mean index of `m_y` (the
per-column mass profile, so `cmy` is the column centroid). -/
def calculate_center_of_mass (array_tiff : List (List ℚ)) : Option ℚ × Option ℚ :=
  (axisCM (m_x array_tiff), axisCM (m_y array_tiff))

/-- Lines 218-245, `calculate_displacement`: zips each coordinate list with
its own tail (`zip(cmx, cmx[1:])`) and appends `final - init`; the two series
are processed independently and `zip` truncates at the shorter list. -/
def calculate_displacement (cmx cmy : List (Option ℚ)) :
    List (Option ℚ) × List (Option ℚ) :=
  (List.zipWith (fun ini fin => pySub fin ini) cmx (cmx.drop 1),
   List.zipWith (fun ini fin => pySub fin ini) cmy (cmy.drop 1))

/-- Lines 247-266, `calculate_time_steps`: zips `timestamps` with
`timestamps[1:]` and appends `final - init`. -/
def calculate_time_steps (timestamps : List (Option ℚ)) : List (Option ℚ) :=
  List.zipWith (fun ini fin => pySub fin ini) timestamps (timestamps.drop 1)

/-- One `for ... in zip(disp, time_steps)` loop of `calculate_inst_vel`
(lines 282-288): divides elementwise, stopping with the loop index of the
first division whose divisor is the float `0.0` (Python's
`ZeroDivisionError` aborts the loop and propagates). -/
def velLoop : List (Option ℚ) → List (Option ℚ) → Nat → Except Nat (List (Option ℚ))
  | d :: ds, t :: ts, i =>
    match pyDiv d t with
    | Except.error _ => Except.error i
    | Except.ok v =>
      match velLoop ds ts (i + 1) with
      | Except.error j => Except.error j
      | Except.ok vs => Except.ok (v :: vs)
  | _, _, _ => Except.ok []

/-- Lines 268-290, `calculate_inst_vel`: runs the x loop first, then the
y loop; an uncaught `ZeroDivisionError` in either aborts the whole call
(the error value records the zip index at which the loop stopped). -/
def calculate_inst_vel (x_disp y_disp time_steps : List (Option ℚ)) :
    Except Nat (List (Option ℚ) × List (Option ℚ)) :=
  match velLoop x_disp time_steps 0 with
  | Except.error i => Except.error i
  | Except.ok xv =>
    match velLoop y_disp time_steps 0 with
    | Except.error i => Except.error i
    | Except.ok yv => Except.ok (xv, yv)

/-- Python 3's builtin `round` to an integer: round half to even
(banker's rounding). -/
def pyRound (q : ℚ) : ℤ :=
  if q - (⌊q⌋ : ℚ) < 1 / 2 then ⌊q⌋
  else if 1 / 2 < q - (⌊q⌋ : ℚ) then ⌊q⌋ + 1
  else if ⌊q⌋ % 2 = 0 then ⌊q⌋ else ⌊q⌋ + 1

/-- Lines 98-99 of `main`: `[round(coord) for coord in coords]`, for a
coordinate list whose entries are all finite. -/
def rounded_coords (coords : List ℚ) : List ℤ :=
  coords.map pyRound

/-- Lines 76-81 of `main`: visit frames in index order and collect the first
component of each frame's center of mass. -/
def cmx_coords (frames : List (List (List ℚ))) : List (Option ℚ) :=
  frames.map (fun f => (calculate_center_of_mass f).1)

/-- Lines 76-81 of `main`: visit frames in index order and collect the second
component of each frame's center of mass. -/
def cmy_coords (frames : List (List (List ℚ))) : List (Option ℚ) :=
  frames.map (fun f => (calculate_center_of_mass f).2)

/-- Lines 76-95 of `main`: the analysis pipeline from frames and timestamps
to the pair of instantaneous-velocity series. -/
def kinematics (frames : List (List (List ℚ))) (timestamps : List (Option ℚ)) :
    Except Nat (List (Option ℚ) × List (Option ℚ)) :=
  calculate_inst_vel
    (calculate_displacement (cmx_coords frames) (cmy_coords frames)).1
    (calculate_displacement (cmx_coords frames) (cmy_coords frames)).2
    (calculate_time_steps timestamps)

/-- Rounding half away from zero, as the spec's RoundedTrajectory words
prescribe (this is the spec's formula, kept for comparison with the code's
`pyRound`; it is not what the source computes). -/
def roundHalfAwayFromZero (q : ℚ) : ℤ :=
  if q < 0 then -⌊-q + 1 / 2⌋ else ⌊q + 1 / 2⌋

/-- Clamp an integer into `[0, D-1]`, as the spec's RoundedTrajectory words
prescribe. -/
def clampIdx (z : ℤ) (D : ℕ) : ℤ :=
  max 0 (min z ((D : ℤ) - 1))

/-- The spec's formula for a RoundedTrajectory entry: round half away from
zero, then clamp into `[0, D-1]` (for comparison with the code's behaviour). -/
def specRoundedEntry (c : ℚ) (D : ℕ) : ℤ :=
  clampIdx (roundHalfAwayFromZero c) D

/-! Shared helper lemmas. -/

theorem pyDiv_ok (d t : Option ℚ) (h : t ≠ some 0) : ∃ v, pyDiv d t = Except.ok v := by
  cases t with
  | none => exact ⟨none, rfl⟩
  | some r =>
    have hr : r ≠ 0 := fun h0 => h (by rw [h0])
    cases d with
    | none => exact ⟨none, by simp [pyDiv, hr]⟩
    | some x => exact ⟨some (x / r), by simp [pyDiv, hr]⟩

theorem velLoop_ok (d : List (Option ℚ)) : ∀ (ts : List (Option ℚ)) (off : Nat),
    (∀ t ∈ ts, t ≠ some 0) →
    ∃ vs, velLoop d ts off = Except.ok vs ∧ vs.length = min d.length ts.length := by
  induction d with
  | nil =>
    intro ts off _
    exact ⟨[], by cases ts <;> simp [velLoop]⟩
  | cons x ds ih =>
    intro ts off h
    cases ts with
    | nil => exact ⟨[], by simp [velLoop]⟩
    | cons t ts2 =>
      have ht : t ≠ some 0 := h t (List.mem_cons_self _ _)
      obtain ⟨v, hv⟩ := pyDiv_ok x t ht
      obtain ⟨vs, hvs, hlen⟩ := ih ts2 (off + 1) (fun u hu => h u (List.mem_cons_of_mem _ hu))
      refine ⟨v :: vs, by simp [velLoop, hv, hvs], ?_⟩
      simp only [List.length_cons]
      omega

theorem velLoop_error (i : Nat) : ∀ (d ts : List (Option ℚ)) (off : Nat),
    i < d.length → i < ts.length → ts.getD i none = some 0 →
    (∀ j, j < i → ts.getD j none ≠ some 0) →
    velLoop d ts off = Except.error (off + i) := by
  induction i with
  | zero =>
    intro d ts off hd ht h0 _
    cases d with
    | nil => simp at hd
    | cons x ds =>
      cases ts with
      | nil => simp at ht
      | cons t ts2 =>
        have ht0 : t = some 0 := by simpa using h0
        subst ht0
        simp [velLoop, pyDiv]
  | succ k ih =>
    intro d ts off hd ht h0 hf
    cases d with
    | nil => simp at hd
    | cons x ds =>
      cases ts with
      | nil => simp at ht
      | cons t ts2 =>
        have ht0 : t ≠ some 0 := by
          have := hf 0 (Nat.succ_pos k)
          simpa using this
        obtain ⟨v, hv⟩ := pyDiv_ok x t ht0
        have hrec := ih ds ts2 (off + 1) (by simpa using hd) (by simpa using ht)
          (by simpa using h0)
          (fun j hj => by
            have := hf (j + 1) (by omega)
            simpa using this)
        simp only [velLoop, hv, hrec]
        congr 1
        omega

theorem calculate_inst_vel_ok (xd yd ts : List (Option ℚ)) (h : ∀ t ∈ ts, t ≠ some 0) :
    ∃ xv yv, calculate_inst_vel xd yd ts = Except.ok (xv, yv) ∧
      xv.length = min xd.length ts.length ∧ yv.length = min yd.length ts.length := by
  obtain ⟨xv, hxv, hxl⟩ := velLoop_ok xd ts 0 h
  obtain ⟨yv, hyv, hyl⟩ := velLoop_ok yd ts 0 h
  exact ⟨xv, yv, by simp [calculate_inst_vel, hxv, hyv], hxl, hyl⟩

theorem steps_ne_zero (qs : List ℚ) (h : List.Chain' (fun a b => a < b) qs) :
    ∀ t ∈ calculate_time_steps (qs.map some), t ≠ some 0 := by
  induction qs with
  | nil => simp [calculate_time_steps]
  | cons a rest ih =>
    cases rest with
    | nil => simp [calculate_time_steps]
    | cons b rest2 =>
      rw [List.chain'_cons] at h
      intro t htmem
      have hstep : calculate_time_steps ((a :: b :: rest2).map some)
          = pySub (some b) (some a) :: calculate_time_steps ((b :: rest2).map some) := rfl
      rw [hstep] at htmem
      rcases List.mem_cons.mp htmem with h1 | h2
      · subst h1
        simp only [pySub, Option.some.injEq, ne_eq]
        intro hba
        exact absurd hba (sub_ne_zero.mpr (ne_of_gt h.1))
      · exact ih h.2 t h2

theorem zip_tail_length (v : List (Option ℚ)) :
    (List.zipWith (fun ini fin => pySub fin ini) v (v.drop 1)).length = v.length - 1 := by
  simp only [List.length_zipWith, List.length_drop]
  omega

theorem zip_tail_getD (v : List (Option ℚ)) : ∀ (i : Nat), i + 1 < v.length →
    (List.zipWith (fun ini fin => pySub fin ini) v (v.drop 1)).getD i none
      = pySub (v.getD (i + 1) none) (v.getD i none) := by
  induction v with
  | nil => intro i h; simp at h
  | cons a rest ih =>
    intro i h
    cases rest with
    | nil => simp at h
    | cons b rest2 =>
      cases i with
      | zero => rfl
      | succ j =>
        have := ih j (by simpa using h)
        simpa using this

theorem getD_map_of_lt {α β : Type} (f : α → β) (l : List α) (da : α) (db : β) :
    ∀ (i : Nat), i < l.length → (l.map f).getD i db = f (l.getD i da) := by
  induction l with
  | nil => intro i h; simp at h
  | cons x xs ih =>
    intro i h
    cases i with
    | zero => rfl
    | succ j => simpa using ih j (by simpa using h)

/-! Claim theorems. -/

/-- C1, counterexample: on the second example frame (bright pixel at row 2,
column 1) `calculate_center_of_mass` returns `(2, 1)`, not the `(1, 2)` the
claim states: `cmx` is the row centroid (because `m_x = sum(axis=1)` is the
per-row profile), so under the claim's column=x/row=y convention the returned
tuple is `(y, x)`. -/
theorem claim_C1_counterexample :
    calculate_center_of_mass [[0,0,0,0],[0,0,0,0],[0,1,0,0],[0,0,0,0]] = (some 2, some 1)
  ∧ calculate_center_of_mass [[0,0,0,0],[0,0,0,0],[0,1,0,0],[0,0,0,0]]
      ≠ ((some 1 : Option ℚ), (some 2 : Option ℚ)) := by
  have h : calculate_center_of_mass [[0,0,0,0],[0,0,0,0],[0,1,0,0],[0,0,0,0]]
      = (some 2, some 1) := by
    norm_num [calculate_center_of_mass, m_x, m_y, axisCM, weightedSumAux]
  refine ⟨h, ?_⟩
  rw [h]
  norm_num [Prod.ext_iff]

/-- C1, amended: the three example frames yield `(cmx, cmy)` = (1,1), (2,1),
(2,2) (the tuple is (row centroid, column centroid)); displacement is
x = [1,0], y = [0,1]; timestamps [0, 0.5, 1] give time steps [0.5, 0.5] and
velocities x = [2,0], y = [0,2]. -/
theorem claim_C1 :
    calculate_center_of_mass [[0,0,0,0],[0,1,0,0],[0,0,0,0],[0,0,0,0]] = (some 1, some 1)
  ∧ calculate_center_of_mass [[0,0,0,0],[0,0,0,0],[0,1,0,0],[0,0,0,0]] = (some 2, some 1)
  ∧ calculate_center_of_mass [[0,0,0,0],[0,0,0,0],[0,0,1,0],[0,0,0,0]] = (some 2, some 2)
  ∧ calculate_displacement
      (cmx_coords [[[0,0,0,0],[0,1,0,0],[0,0,0,0],[0,0,0,0]],
                   [[0,0,0,0],[0,0,0,0],[0,1,0,0],[0,0,0,0]],
                   [[0,0,0,0],[0,0,0,0],[0,0,1,0],[0,0,0,0]]])
      (cmy_coords [[[0,0,0,0],[0,1,0,0],[0,0,0,0],[0,0,0,0]],
                   [[0,0,0,0],[0,0,0,0],[0,1,0,0],[0,0,0,0]],
                   [[0,0,0,0],[0,0,0,0],[0,0,1,0],[0,0,0,0]]])
      = ([some 1, some 0], [some 0, some 1])
  ∧ calculate_time_steps [some 0, some (1/2), some 1] = [some (1/2), some (1/2)]
  ∧ kinematics [[[0,0,0,0],[0,1,0,0],[0,0,0,0],[0,0,0,0]],
                [[0,0,0,0],[0,0,0,0],[0,1,0,0],[0,0,0,0]],
                [[0,0,0,0],[0,0,0,0],[0,0,1,0],[0,0,0,0]]]
      [some 0, some (1/2), some 1] = Except.ok ([some 2, some 0], [some 0, some 2]) := by
  refine ⟨?_, ?_, ?_, ?_, ?_, ?_⟩ <;>
    norm_num [kinematics, cmx_coords, cmy_coords, calculate_center_of_mass, m_x, m_y,
      axisCM, weightedSumAux, calculate_displacement, calculate_time_steps,
      calculate_inst_vel, velLoop, pySub, pyDiv]

/-- C2, counterexample: on the all-zero 1×1 frame `calculate_center_of_mass`
does not fail: numpy's `0/0` silently yields NaN on both axes (modelled
`none`), refuting the claim that a blank frame raises `EmptyMassError` and
that a NaN centroid is never produced (no such error class exists in the
code). -/
theorem claim_C2_counterexample :
    calculate_center_of_mass [[0]] = (none, none) := by
  norm_num [calculate_center_of_mass, m_x, m_y, axisCM, weightedSumAux]

/-- C2, amended: for every frame whose mass profile sums to zero on an axis,
`calculate_center_of_mass` yields a non-finite (NaN/∞, modelled `none`)
centroid coordinate for that axis; no exception is raised. -/
theorem claim_C2 (f : List (List ℚ)) :
    ((m_x f).sum = 0 → (calculate_center_of_mass f).1 = none)
  ∧ ((m_y f).sum = 0 → (calculate_center_of_mass f).2 = none) := by
  constructor <;> intro h <;> simp [calculate_center_of_mass, axisCM, h]

/-- C2, witness: the amended theorem applied to the all-zero 1×1 frame. -/
theorem claim_C2_witness :
    (calculate_center_of_mass [[0]]).1 = none ∧ (calculate_center_of_mass [[0]]).2 = none :=
  ⟨(claim_C2 [[0]]).1 (by norm_num [m_x]), (claim_C2 [[0]]).2 (by norm_num [m_y])⟩

/-- C3, counterexample: two one-pixel frames with three timestamps (length
mismatch 3 ≠ 2) do not fail: no `AlignmentError` exists, the zips silently
truncate, and a velocity value is produced. -/
theorem claim_C3_counterexample :
    ([some (0:ℚ), some (1/2), some 1].length ≠ ([[[ (1:ℚ) ]], [[ (1:ℚ) ]]].length : Nat))
  ∧ kinematics [[[1]],[[1]]] [some 0, some (1/2), some 1] = Except.ok ([some 0], [some 0]) := by
  constructor
  · simp
  · norm_num [kinematics, cmx_coords, cmy_coords, calculate_center_of_mass, m_x, m_y,
      axisCM, weightedSumAux, calculate_displacement, calculate_time_steps,
      calculate_inst_vel, velLoop, pySub, pyDiv]

/-- C3, amended: when the timestamp count differs from the frame count no
error is raised; the pipeline silently truncates, producing velocity series
of length `min(frames - 1, timestamps - 1)` (stated for strictly increasing
timestamps, so that no division by a zero step intervenes). -/
theorem claim_C3 (frames : List (List (List ℚ))) (qs : List ℚ)
    (_hne : qs.length ≠ frames.length)
    (hmono : List.Chain' (fun a b => a < b) qs) :
    ∃ xv yv, kinematics frames (qs.map some) = Except.ok (xv, yv)
      ∧ xv.length = min (frames.length - 1) (qs.length - 1)
      ∧ yv.length = min (frames.length - 1) (qs.length - 1) := by
  obtain ⟨xv, yv, hok, hx, hy⟩ := calculate_inst_vel_ok
    (calculate_displacement (cmx_coords frames) (cmy_coords frames)).1
    (calculate_displacement (cmx_coords frames) (cmy_coords frames)).2
    (calculate_time_steps (qs.map some)) (steps_ne_zero qs hmono)
  refine ⟨xv, yv, hok, ?_, ?_⟩
  · rw [hx]
    simp only [calculate_displacement, calculate_time_steps, zip_tail_length,
      cmx_coords, List.length_map]
  · rw [hy]
    simp only [calculate_displacement, calculate_time_steps, zip_tail_length,
      cmy_coords, List.length_map]

/-- C3, witness: the amended theorem applied to two one-pixel frames and
three strictly increasing timestamps. -/
theorem claim_C3_witness :
    ∃ xv yv, kinematics [[[1]],[[1]]] ([(0:ℚ), 1/2, 1].map some) = Except.ok (xv, yv)
      ∧ xv.length = min (([[[ (1:ℚ) ]], [[ (1:ℚ) ]]].length : Nat) - 1) ([(0:ℚ), 1/2, 1].length - 1)
      ∧ yv.length = min (([[[ (1:ℚ) ]], [[ (1:ℚ) ]]].length : Nat) - 1) ([(0:ℚ), 1/2, 1].length - 1) :=
  claim_C3 [[[1]],[[1]]] [0, 1/2, 1] (by simp)
    (by norm_num [List.chain'_cons, List.chain'_singleton])

/-- C4: velocity computation aborts with a `ZeroDivisionError` (the code's
realization of the claimed failure; the embedding records the zip index) at
the first index whose time step is the float 0.0, so an infinite velocity is
never silently produced; the hypotheses place that first zero step inside the
range the x-loop traverses. -/
theorem claim_C4 (x_disp y_disp time_steps : List (Option ℚ)) (i : Nat)
    (hx : i < x_disp.length) (ht : i < time_steps.length)
    (h0 : time_steps.getD i none = some 0)
    (hfirst : ∀ j, j < i → time_steps.getD j none ≠ some 0) :
    calculate_inst_vel x_disp y_disp time_steps = Except.error i := by
  have h := velLoop_error i x_disp time_steps 0 hx ht h0 hfirst
  simp only [calculate_inst_vel, h, Nat.zero_add]

/-- C4, witness: the spec's own example — timestamps [0, 0.5, 0.5] give time
steps [0.5, 0], and the velocity computation for displacements of a 3-frame
sequence fails while computing the second interval (index 1). -/
theorem claim_C4_witness :
    calculate_inst_vel [some 1, some 0] [some 0, some 1]
      (calculate_time_steps [some 0, some (1/2), some (1/2)]) = Except.error 1 := by
  have hsteps : calculate_time_steps [some (0:ℚ), some (1/2), some (1/2)]
      = [some (1/2), some 0] := by
    norm_num [calculate_time_steps, pySub]
  rw [hsteps]
  exact claim_C4 [some 1, some 0] [some 0, some 1] [some (1/2), some 0] 1
    (by norm_num) (by norm_num) (by norm_num)
    (by
      intro j hj
      have hj0 : j = 0 := by omega
      subst hj0
      norm_num)

/-- C10, counterexample: mismatched lengths do not guarantee a silent
truncation — a zero time step inside the zipped range still raises
`ZeroDivisionError`, so the claim's "without raising any error" is false. -/
theorem claim_C10_counterexample :
    ([some (1:ℚ)].length ≠ [some (0:ℚ), some 1].length)
  ∧ calculate_inst_vel [some 1] [some 1] [some 0, some 1] = Except.error 0 := by
  constructor
  · simp
  · norm_num [calculate_inst_vel, velLoop, pyDiv]

/-- C10, amended: when the input lengths differ and every time step is
nonzero, `calculate_inst_vel` silently drops the unmatched tails: it returns
x- and y-velocity series of lengths `min(len x_disp, len steps)` and
`min(len y_disp, len steps)` respectively, raising no error. -/
theorem claim_C10 (x_disp y_disp time_steps : List (Option ℚ))
    (_hne : x_disp.length ≠ time_steps.length)
    (h : ∀ t ∈ time_steps, t ≠ some 0) :
    ∃ xv yv, calculate_inst_vel x_disp y_disp time_steps = Except.ok (xv, yv)
      ∧ xv.length = min x_disp.length time_steps.length
      ∧ yv.length = min y_disp.length time_steps.length :=
  calculate_inst_vel_ok x_disp y_disp time_steps h

/-- C10, witness: x-displacements of length 1 and y-displacements of length 2
against three nonzero time steps truncate to lengths 1 and 2. -/
theorem claim_C10_witness :
    ∃ xv yv, calculate_inst_vel [some 1] [some 2, some 3]
        [some 1, some 1, some 1] = Except.ok (xv, yv)
      ∧ xv.length = min ([some (1:ℚ)].length) ([some (1:ℚ), some 1, some 1].length)
      ∧ yv.length = min ([some (2:ℚ), some 3].length) ([some (1:ℚ), some 1, some 1].length) :=
  claim_C10 [some 1] [some 2, some 3] [some 1, some 1, some 1] (by simp)
    (by
      intro t htm
      fin_cases htm <;> norm_num)

/-- C6: `calculate_displacement` returns, independently for the x and y
series, a list of length N−1 whose i-th entry is `v[i+1] − v[i]` (Python
float subtraction), and for N ≤ 1 the result is the empty list, not an
error. -/
theorem claim_C6 (cmx cmy : List (Option ℚ)) :
    (calculate_displacement cmx cmy).1.length = cmx.length - 1
  ∧ (calculate_displacement cmx cmy).2.length = cmy.length - 1
  ∧ (∀ i, i + 1 < cmx.length →
      (calculate_displacement cmx cmy).1.getD i none
        = pySub (cmx.getD (i + 1) none) (cmx.getD i none))
  ∧ (∀ i, i + 1 < cmy.length →
      (calculate_displacement cmx cmy).2.getD i none
        = pySub (cmy.getD (i + 1) none) (cmy.getD i none))
  ∧ (cmx.length ≤ 1 → (calculate_displacement cmx cmy).1 = [])
  ∧ (cmy.length ≤ 1 → (calculate_displacement cmx cmy).2 = []) := by
  refine ⟨zip_tail_length cmx, zip_tail_length cmy,
    fun i hi => zip_tail_getD cmx i hi, fun i hi => zip_tail_getD cmy i hi, ?_, ?_⟩
  · intro h1
    have h2 : (calculate_displacement cmx cmy).1.length = cmx.length - 1 :=
      zip_tail_length cmx
    exact List.length_eq_zero.mp (by omega)
  · intro h1
    have h2 : (calculate_displacement cmx cmy).2.length = cmy.length - 1 :=
      zip_tail_length cmy
    exact List.length_eq_zero.mp (by omega)

/-- C6, witness: a two-element x series and a three-element y series, plus
the N = 1 empty case. -/
theorem claim_C6_witness :
    (calculate_displacement [some 1, some 3] [some 2, some 6, some 4]).1.getD 0 none
        = pySub (some 3) (some 1)
  ∧ (calculate_displacement [some 1, some 3] [some 2, some 6, some 4]).2.getD 1 none
        = pySub (some 4) (some 6)
  ∧ (calculate_displacement [some 1] [some 2]).1 = [] :=
  ⟨(claim_C6 [some 1, some 3] [some 2, some 6, some 4]).2.2.1 0 (by norm_num),
   (claim_C6 [some 1, some 3] [some 2, some 6, some 4]).2.2.2.1 1 (by norm_num),
   (claim_C6 [some 1] [some 2]).2.2.2.2.1 (by norm_num)⟩

theorem zip_pySub_map (xs : List ℚ) :
    List.zipWith (fun ini fin => pySub fin ini) (xs.map some) ((xs.map some).drop 1)
      = (List.zipWith (fun a b => b - a) xs (xs.drop 1)).map some := by
  induction xs with
  | nil => rfl
  | cons a rest ih =>
    cases rest with
    | nil => rfl
    | cons b rest2 =>
      simpa [pySub, List.drop_one] using ih

theorem filterMap_id_map_some (l : List ℚ) : (l.map some).filterMap id = l := by
  induction l with
  | nil => rfl
  | cons a r ih => simp [ih]

theorem take_diff_sum (i : Nat) : ∀ (xs : List ℚ), i < xs.length →
    ((List.zipWith (fun a b => b - a) xs (xs.drop 1)).take i).sum
      = xs.getD i 0 - xs.getD 0 0 := by
  induction i with
  | zero => intro xs _; simp
  | succ j ih =>
    intro xs h
    cases xs with
    | nil => simp at h
    | cons a rest =>
      cases rest with
      | nil => simp at h
      | cons b rest2 =>
        have hxs : List.zipWith (fun a b => b - a) (a :: b :: rest2) ((a :: b :: rest2).drop 1)
            = (b - a) :: List.zipWith (fun a b => b - a) (b :: rest2) ((b :: rest2).drop 1) := rfl
        rw [hxs]
        simp only [List.take_succ_cons, List.sum_cons]
        rw [ih (b :: rest2) (by simpa using h)]
        simp only [List.getD_cons_succ, List.getD_cons_zero]
        ring

/-- C7: each coordinate is reconstructed exactly (over exact arithmetic) from
the first coordinate plus the prefix sum of displacements, for both the x and
the y series (stated for finite coordinate values). -/
theorem claim_C7 (xs ys : List ℚ) (i : Nat) (hx : i < xs.length) (hy : i < ys.length) :
    xs.getD i 0 = xs.getD 0 0
      + (((calculate_displacement (xs.map some) (ys.map some)).1.take i).filterMap id).sum
  ∧ ys.getD i 0 = ys.getD 0 0
      + (((calculate_displacement (xs.map some) (ys.map some)).2.take i).filterMap id).sum := by
  constructor
  · have h1 : (calculate_displacement (xs.map some) (ys.map some)).1
        = (List.zipWith (fun a b => b - a) xs (xs.drop 1)).map some := zip_pySub_map xs
    rw [h1, ← List.map_take, filterMap_id_map_some, take_diff_sum i xs hx]
    ring
  · have h2 : (calculate_displacement (xs.map some) (ys.map some)).2
        = (List.zipWith (fun a b => b - a) ys (ys.drop 1)).map some := zip_pySub_map ys
    rw [h2, ← List.map_take, filterMap_id_map_some, take_diff_sum i ys hy]
    ring

/-- C7, witness: the reconstruction identity at index 1 of the series
x = [1, 3, 2] and y = [5, 5]. -/
theorem claim_C7_witness :
    ([(1:ℚ), 3, 2].getD 1 0 = [(1:ℚ), 3, 2].getD 0 0
      + (((calculate_displacement ([(1:ℚ), 3, 2].map some) ([(5:ℚ), 5].map some)).1.take 1).filterMap id).sum)
  ∧ ([(5:ℚ), 5].getD 1 0 = [(5:ℚ), 5].getD 0 0
      + (((calculate_displacement ([(1:ℚ), 3, 2].map some) ([(5:ℚ), 5].map some)).2.take 1).filterMap id).sum) :=
  claim_C7 [1, 3, 2] [5, 5] 1 (by norm_num) (by norm_num)

theorem pyRound_nonneg (q : ℚ) (h : 0 ≤ q) : 0 ≤ pyRound q := by
  have h0 : (0 : ℤ) ≤ ⌊q⌋ := Int.floor_nonneg.mpr h
  unfold pyRound
  split_ifs <;> omega

theorem pyRound_le (q : ℚ) (B : ℤ) (h : q ≤ (B : ℚ)) : pyRound q ≤ B := by
  have hB : ⌊q⌋ ≤ B := by
    have := Int.floor_le_floor h
    simpa using this
  have hfl : (⌊q⌋ : ℚ) ≤ q := Int.floor_le q
  unfold pyRound
  split_ifs with h1 h2 h3
  · exact hB
  · have hlt : (⌊q⌋ : ℚ) < (B : ℚ) := by linarith
    have : ⌊q⌋ < B := by exact_mod_cast hlt
    omega
  · exact hB
  · have hfrac : q - (⌊q⌋ : ℚ) = 1 / 2 := le_antisymm (not_lt.mp h2) (not_lt.mp h1)
    have hlt : (⌊q⌋ : ℚ) < (B : ℚ) := by linarith
    have : ⌊q⌋ < B := by exact_mod_cast hlt
    omega

/-- C5, counterexample: the 2×2 all-ones frame (both dimensions D = 2) has
centroid coordinate 1/2, a trajectory coordinate the code rounds to 0
(Python's round is half-to-even and no clamping is applied), while the
claim's round-half-away-from-zero-then-clamp formula gives 1. -/
theorem claim_C5_counterexample :
    (calculate_center_of_mass [[1, 1], [1, 1]]).1 = some (1 / 2)
  ∧ rounded_coords [1 / 2] = [0]
  ∧ specRoundedEntry (1 / 2) 2 = 1
  ∧ (0 : ℤ) ≠ 1 := by
  refine ⟨?_, ?_, ?_, by norm_num⟩
  · norm_num [calculate_center_of_mass, m_x, m_y, axisCM, weightedSumAux]
  · norm_num [rounded_coords, pyRound]
  · norm_num [specRoundedEntry, roundHalfAwayFromZero, clampIdx]

/-- C5, amended: each RoundedTrajectory entry is the coordinate rounded with
Python's round-half-to-even, with no clamping applied; for coordinates
already inside `[0, D−1]` (as genuine centroids are) every entry is
nonetheless a valid pixel index. -/
theorem claim_C5 (coords : List ℚ) (D : ℕ) (i : Nat) (_hD : 1 ≤ D)
    (hin : ∀ c ∈ coords, 0 ≤ c ∧ c ≤ (D : ℚ) - 1) (hi : i < coords.length) :
    (rounded_coords coords).getD i 0 = pyRound (coords.getD i 0)
  ∧ 0 ≤ (rounded_coords coords).getD i 0
  ∧ (rounded_coords coords).getD i 0 ≤ (D : ℤ) - 1 := by
  have hmem : coords.getD i 0 ∈ coords := by
    rw [List.getD_eq_getElem coords 0 hi]
    exact List.getElem_mem hi
  have hbound := hin (coords.getD i 0) hmem
  have hmap : (rounded_coords coords).getD i 0 = pyRound (coords.getD i 0) :=
    getD_map_of_lt pyRound coords 0 0 i hi
  refine ⟨hmap, ?_, ?_⟩
  · rw [hmap]
    exact pyRound_nonneg _ hbound.1
  · rw [hmap]
    refine pyRound_le _ _ ?_
    have := hbound.2
    push_cast
    linarith

/-- C5, witness: the amended theorem applied to the coordinate list
[1/2, 3/2] in a frame of dimension 3, at index 0. -/
theorem claim_C5_witness :
    (rounded_coords [1 / 2, 3 / 2]).getD 0 0 = pyRound ([(1:ℚ) / 2, 3 / 2].getD 0 0)
  ∧ 0 ≤ (rounded_coords [1 / 2, 3 / 2]).getD 0 0
  ∧ (rounded_coords [1 / 2, 3 / 2]).getD 0 0 ≤ ((3:ℕ) : ℤ) - 1 :=
  claim_C5 [1 / 2, 3 / 2] 3 0 (by norm_num)
    (by
      intro c hc
      fin_cases hc <;> norm_num)
    (by norm_num)

theorem weightedSumAux_nonneg (m : List ℚ) : ∀ (i : Nat), (∀ w ∈ m, 0 ≤ w) →
    0 ≤ weightedSumAux m i := by
  induction m with
  | nil => intro i _; simp [weightedSumAux]
  | cons w ws ih =>
    intro i h
    have hw := h w (List.mem_cons_self _ _)
    have hr := ih (i + 1) (fun u hu => h u (List.mem_cons_of_mem _ hu))
    have hwi : (0 : ℚ) ≤ w * i := mul_nonneg hw (by positivity)
    simp only [weightedSumAux]
    linarith

theorem weightedSumAux_le (m : List ℚ) : ∀ (i : Nat), (∀ w ∈ m, 0 ≤ w) →
    weightedSumAux m i ≤ ((i : ℚ) + m.length - 1) * m.sum := by
  induction m with
  | nil => intro i _; simp [weightedSumAux]
  | cons w ws ih =>
    intro i h
    have hw := h w (List.mem_cons_self _ _)
    have htail : ∀ u ∈ ws, (0:ℚ) ≤ u := fun u hu => h u (List.mem_cons_of_mem _ hu)
    have hsum : (0:ℚ) ≤ ws.sum := List.sum_nonneg htail
    have hrec := ih (i + 1) htail
    push_cast at hrec
    have hmono : w * (i : ℚ) ≤ w * ((i : ℚ) + ws.length) :=
      mul_le_mul_of_nonneg_left (le_add_of_nonneg_right (Nat.cast_nonneg _)) hw
    simp only [weightedSumAux, List.length_cons, List.sum_cons]
    push_cast
    nlinarith [hrec, hmono]

theorem axisCM_bounds (m : List ℚ) (hnn : ∀ w ∈ m, 0 ≤ w) (hpos : 0 < m.sum) :
    ∃ c, axisCM m = some c ∧ 0 ≤ c ∧ c ≤ (m.length : ℚ) - 1 := by
  have hne : m.sum ≠ 0 := ne_of_gt hpos
  refine ⟨weightedSumAux m 0 / m.sum, by simp [axisCM, hne], ?_, ?_⟩
  · exact div_nonneg (weightedSumAux_nonneg m 0 hnn) (le_of_lt hpos)
  · rw [div_le_iff₀ hpos]
    have h := weightedSumAux_le m 0 hnn
    push_cast at h
    nlinarith [h]

theorem m_x_nonneg (f : List (List ℚ)) (hnn : ∀ row ∈ f, ∀ v ∈ row, 0 ≤ v) :
    ∀ w ∈ m_x f, 0 ≤ w := by
  intro w hw
  simp only [m_x, List.mem_map] at hw
  obtain ⟨row, hrow, rfl⟩ := hw
  exact List.sum_nonneg (hnn row hrow)

theorem zipWith_add_nonneg : ∀ (a b : List ℚ), (∀ x ∈ a, 0 ≤ x) → (∀ x ∈ b, 0 ≤ x) →
    ∀ x ∈ List.zipWith (fun x y => x + y) a b, 0 ≤ x := by
  intro a
  induction a with
  | nil => intro b _ _ x hx; simp at hx
  | cons u us ih =>
    intro b ha hb x hx
    cases b with
    | nil => simp at hx
    | cons v vs =>
      simp only [List.zipWith_cons_cons, List.mem_cons] at hx
      rcases hx with h | h
      · subst h
        exact add_nonneg (ha u (List.mem_cons_self _ _)) (hb v (List.mem_cons_self _ _))
      · exact ih vs (fun x hx2 => ha x (List.mem_cons_of_mem _ hx2))
          (fun x hx2 => hb x (List.mem_cons_of_mem _ hx2)) x h

theorem foldl_add_nonneg (rs : List (List ℚ)) : ∀ (acc : List ℚ),
    (∀ x ∈ acc, 0 ≤ x) → (∀ row ∈ rs, ∀ v ∈ row, 0 ≤ v) →
    ∀ x ∈ rs.foldl (fun acc row => List.zipWith (fun x y => x + y) acc row) acc, 0 ≤ x := by
  induction rs with
  | nil => intro acc hacc _; simpa using hacc
  | cons r rs2 ih =>
    intro acc hacc hrs
    simp only [List.foldl_cons]
    exact ih (List.zipWith (fun x y => x + y) acc r)
      (zipWith_add_nonneg acc r hacc (hrs r (List.mem_cons_self _ _)))
      (fun row hrow => hrs row (List.mem_cons_of_mem _ hrow))

theorem m_y_nonneg (f : List (List ℚ)) (hnn : ∀ row ∈ f, ∀ v ∈ row, 0 ≤ v) :
    ∀ w ∈ m_y f, 0 ≤ w := by
  cases f with
  | nil => simp [m_y]
  | cons r rs =>
    exact foldl_add_nonneg rs r (hnn r (List.mem_cons_self _ _))
      (fun row hrow => hnn row (List.mem_cons_of_mem _ hrow))

/-- C8: for a frame with non-negative intensities, whenever the mass profile
of an axis has positive total, the centroid coordinate computed by
`calculate_center_of_mass` for that axis is a finite value lying within
`[0, axis_length − 1]` (the axis length being the length of that axis's mass
profile). -/
theorem claim_C8 (f : List (List ℚ)) (hnn : ∀ row ∈ f, ∀ v ∈ row, 0 ≤ v) :
    (0 < (m_x f).sum → ∃ c, (calculate_center_of_mass f).1 = some c
        ∧ 0 ≤ c ∧ c ≤ ((m_x f).length : ℚ) - 1)
  ∧ (0 < (m_y f).sum → ∃ c, (calculate_center_of_mass f).2 = some c
        ∧ 0 ≤ c ∧ c ≤ ((m_y f).length : ℚ) - 1) := by
  constructor
  · intro hpos
    exact axisCM_bounds (m_x f) (m_x_nonneg f hnn) hpos
  · intro hpos
    exact axisCM_bounds (m_y f) (m_y_nonneg f hnn) hpos

/-- C8, witness: the 1×1 frame of intensity 1 has positive mass on both axes
and its centroid coordinates are bounded by the axis lengths. -/
theorem claim_C8_witness :
    (∃ c, (calculate_center_of_mass [[1]]).1 = some c
        ∧ 0 ≤ c ∧ c ≤ ((m_x [[1]]).length : ℚ) - 1)
  ∧ (∃ c, (calculate_center_of_mass [[1]]).2 = some c
        ∧ 0 ≤ c ∧ c ≤ ((m_y [[1]]).length : ℚ) - 1) := by
  have hnn : ∀ row ∈ [[(1:ℚ)]], ∀ v ∈ row, 0 ≤ v := by
    intro row hr v hv
    fin_cases hr
    fin_cases hv
    norm_num
  exact ⟨(claim_C8 [[1]] hnn).1 (by norm_num [m_x]),
         (claim_C8 [[1]] hnn).2 (by norm_num [m_y])⟩

/-- C9: for N ≥ 1 frames with an aligned, strictly increasing timestamp
series of length N, the trajectory lists have length N and are built by
visiting frames in index order 0..N−1; the displacement series, time-step
series and (successfully produced) velocity series each have length N−1. -/
theorem claim_C9 (frames : List (List (List ℚ))) (qs : List ℚ)
    (_hN : 1 ≤ frames.length) (hlen : qs.length = frames.length)
    (hmono : List.Chain' (fun a b => a < b) qs) :
    (cmx_coords frames).length = frames.length
  ∧ (cmy_coords frames).length = frames.length
  ∧ (∀ i, i < frames.length →
      (cmx_coords frames).getD i none = (calculate_center_of_mass (frames.getD i [])).1
      ∧ (cmy_coords frames).getD i none = (calculate_center_of_mass (frames.getD i [])).2)
  ∧ (calculate_displacement (cmx_coords frames) (cmy_coords frames)).1.length
      = frames.length - 1
  ∧ (calculate_displacement (cmx_coords frames) (cmy_coords frames)).2.length
      = frames.length - 1
  ∧ (calculate_time_steps (qs.map some)).length = frames.length - 1
  ∧ ∃ xv yv, kinematics frames (qs.map some) = Except.ok (xv, yv)
      ∧ xv.length = frames.length - 1 ∧ yv.length = frames.length - 1 := by
  have hxlen : (cmx_coords frames).length = frames.length := by simp [cmx_coords]
  have hylen : (cmy_coords frames).length = frames.length := by simp [cmy_coords]
  have hd1 : (calculate_displacement (cmx_coords frames) (cmy_coords frames)).1.length
      = frames.length - 1 :=
    (zip_tail_length (cmx_coords frames)).trans (by rw [hxlen])
  have hd2 : (calculate_displacement (cmx_coords frames) (cmy_coords frames)).2.length
      = frames.length - 1 :=
    (zip_tail_length (cmy_coords frames)).trans (by rw [hylen])
  have hst : (calculate_time_steps (qs.map some)).length = frames.length - 1 :=
    (zip_tail_length (qs.map some)).trans (by simp [hlen])
  obtain ⟨xv, yv, hok, hx, hy⟩ := calculate_inst_vel_ok
    (calculate_displacement (cmx_coords frames) (cmy_coords frames)).1
    (calculate_displacement (cmx_coords frames) (cmy_coords frames)).2
    (calculate_time_steps (qs.map some)) (steps_ne_zero qs hmono)
  refine ⟨hxlen, hylen, ?_, hd1, hd2, hst, xv, yv, hok, ?_, ?_⟩
  · intro i hi
    exact ⟨getD_map_of_lt (fun fr => (calculate_center_of_mass fr).1) frames [] none i hi,
           getD_map_of_lt (fun fr => (calculate_center_of_mass fr).2) frames [] none i hi⟩
  · rw [hx, hd1, hst, min_self]
  · rw [hy, hd2, hst, min_self]

/-- C9, witness: two one-pixel frames with the aligned timestamp series
[0, 1]. -/
theorem claim_C9_witness :
    (cmx_coords [[[1]],[[1]]]).length = ([[[ (1:ℚ) ]], [[ (1:ℚ) ]]] : List (List (List ℚ))).length
  ∧ (cmy_coords [[[1]],[[1]]]).length = ([[[ (1:ℚ) ]], [[ (1:ℚ) ]]] : List (List (List ℚ))).length
  ∧ (∀ i, i < ([[[ (1:ℚ) ]], [[ (1:ℚ) ]]] : List (List (List ℚ))).length →
      (cmx_coords [[[1]],[[1]]]).getD i none
        = (calculate_center_of_mass (([[[ (1:ℚ) ]], [[ (1:ℚ) ]]] : List (List (List ℚ))).getD i [])).1
      ∧ (cmy_coords [[[1]],[[1]]]).getD i none
        = (calculate_center_of_mass (([[[ (1:ℚ) ]], [[ (1:ℚ) ]]] : List (List (List ℚ))).getD i [])).2)
  ∧ (calculate_displacement (cmx_coords [[[1]],[[1]]]) (cmy_coords [[[1]],[[1]]])).1.length
      = ([[[ (1:ℚ) ]], [[ (1:ℚ) ]]] : List (List (List ℚ))).length - 1
  ∧ (calculate_displacement (cmx_coords [[[1]],[[1]]]) (cmy_coords [[[1]],[[1]]])).2.length
      = ([[[ (1:ℚ) ]], [[ (1:ℚ) ]]] : List (List (List ℚ))).length - 1
  ∧ (calculate_time_steps ([(0:ℚ), 1].map some)).length
      = ([[[ (1:ℚ) ]], [[ (1:ℚ) ]]] : List (List (List ℚ))).length - 1
  ∧ ∃ xv yv, kinematics [[[1]],[[1]]] ([(0:ℚ), 1].map some) = Except.ok (xv, yv)
      ∧ xv.length = ([[[ (1:ℚ) ]], [[ (1:ℚ) ]]] : List (List (List ℚ))).length - 1
      ∧ yv.length = ([[[ (1:ℚ) ]], [[ (1:ℚ) ]]] : List (List (List ℚ))).length - 1 :=
  claim_C9 [[[1]],[[1]]] [0, 1] (by norm_num) (by norm_num)
    (by norm_num [List.chain'_cons, List.chain'_singleton])

end DnaCom
